import Mathlib

/-!
Verification of the TTAT data-processing core (`data_processor.py`):
sentence cleaning, sentence-pair validation, the Excel row reader and the
batch pipeline `process_sentence_pairs_batch`.

The Python code is shallowly embedded as follows.

* Python strings are `String` (a list of Unicode code points, matching
  Python `len` / indexing semantics).
* Spreadsheet rows are `List String` (one stringified cell value per cell;
  `str(cell.value or "")` is already applied, so a cell is just a string).
* The external `langdetect.detect` function is a parameter
  `det : DetectOracle`; a `LangDetectException` is modelled as
  `Except.error ()`.
* Python regular-expression passes used by `clean_sentence` are embedded as
  executable scanners with the same left-to-right, leftmost-match semantics.
  The Unicode classes `\s`, `\w`, `\d` are modelled by explicit character
  predicates: `\s` as the enumerated Unicode whitespace set, `\w` as ASCII
  alphanumerics, underscore and CJK ideographs (the word characters the
  repository's data can contain), `\d` as ASCII digits.
* Generators are lists: `read_excel_file` returns `Option (List RawRow)`
  (`none` models the generator raising), and `process_sentence_pairs_batch`
  returns the list of yielded `(valid, invalid)` batches.
-/

/-- Unicode whitespace, as matched by Python `str.strip`, `str.isspace` and
the regex class `\s` on `str` patterns. -/
def pyIsSpace (c : Char) : Bool :=
  c = '\x20' || c = '\x09' || c = '\x0a' || c = '\x0b' || c = '\x0c' ||
  c = '\x0d' || c = '\x1c' || c = '\x1d' || c = '\x1e' || c = '\x1f' ||
  c = '\x85' || c = '\u00a0' || c = '\u1680' || c = '\u2000' ||
  c = '\u2001' || c = '\u2002' || c = '\u2003' || c = '\u2004' ||
  c = '\u2005' || c = '\u2006' || c = '\u2007' || c = '\u2008' ||
  c = '\u2009' || c = '\u200a' || c = '\u2028' || c = '\u2029' ||
  c = '\u202f' || c = '\u205f' || c = '\u3000'

/-- CJK ideograph test used by `clean_sentence`: the regex class
`[一-鿿]`. -/
def isCJK (c : Char) : Bool :=
  0x4e00 ≤ c.toNat && c.toNat ≤ 0x9fff

/-- Word characters for the regex class `\w` (ASCII alphanumerics,
underscore, CJK ideographs). -/
def isWordChar (c : Char) : Bool :=
  c.isAlphanum || c = '_' || isCJK c

/-- Python `str.strip()` on the character-list view: drop whitespace from
both ends. -/
def stripList (l : List Char) : List Char :=
  ((l.dropWhile pyIsSpace).reverse.dropWhile pyIsSpace).reverse

/-- One pass of `re.sub(r'<s>|</s>|doc#\w+\s*', '', text)`: scan left to
right; at each position try the alternatives in order; on a match skip the
matched characters, otherwise keep one character and move on.  The fuel
argument bounds the number of scan steps; each step consumes at least one
character, so `l.length` fuel is always enough. -/
def stripMarkersF : Nat → List Char → List Char
  | 0, l => l
  | _ + 1, [] => []
  | f + 1, c :: rest =>
    if (c :: rest).take 3 = ['<', 's', '>'] then
      stripMarkersF f ((c :: rest).drop 3)
    else if (c :: rest).take 4 = ['<', '/', 's', '>'] then
      stripMarkersF f ((c :: rest).drop 4)
    else if (c :: rest).take 4 = ['d', 'o', 'c', '#'] ∧
        (((c :: rest).drop 4).head?.map isWordChar).getD false = true then
      stripMarkersF f (((((c :: rest).drop 4).dropWhile isWordChar).dropWhile pyIsSpace))
    else
      c :: stripMarkersF f rest

/-- The marker-removal pass `re.sub(r'<s>|</s>|doc#\w+\s*', '', text)`. -/
def stripMarkers (l : List Char) : List Char :=
  stripMarkersF l.length l

/-- The numbering-prefix pass `re.sub(r'^\d+\s*\.\s*', '', cleaned)`:
anchored at the start, one or more ASCII digits, optional whitespace, a
literal dot, optional whitespace; if the whole pattern matches it is
removed, otherwise the string is unchanged. -/
def stripNumberPrefix (l : List Char) : List Char :=
  match l with
  | [] => []
  | c :: _ =>
    if c.isDigit then
      match (l.dropWhile Char.isDigit).dropWhile pyIsSpace with
      | d :: r3 => if d = '.' then r3.dropWhile pyIsSpace else l
      | [] => l
    else l

/-- `re.sub(r'\s+', ' ', cleaned)`: replace each maximal whitespace run by a
single space.  The flag records whether the previous character was part of a
whitespace run already emitted. -/
def collapseAux : List Char → Bool → List Char
  | [], _ => []
  | c :: rest, prevSpace =>
    if pyIsSpace c then
      if prevSpace then collapseAux rest true
      else ' ' :: collapseAux rest true
    else c :: collapseAux rest false

/-- The text after the first two cleaning steps of `clean_sentence`
(marker removal + strip, then numbering-prefix removal + strip); the
script-dependent whitespace branch is decided on this text. -/
def preCleanList (l : List Char) : List Char :=
  stripList (stripNumberPrefix (stripList (stripMarkers l)))

/-- `DataProcessor.clean_sentence` on the character-list view. -/
def cleanList (l : List Char) : List Char :=
  if (preCleanList l).any isCJK then
    (preCleanList l).filter (fun c => !pyIsSpace c)
  else
    collapseAux (preCleanList l) false

/-- `DataProcessor.clean_sentence`. -/
def clean_sentence (text : String) : String :=
  ⟨cleanList text.data⟩

/-- Existence of a run of two or more consecutive space characters. -/
def hasDoubleSpace : List Char → Bool
  | c1 :: c2 :: rest => (c1 = ' ' && c2 = ' ') || hasDoubleSpace (c2 :: rest)
  | _ => false

/-- Characters skipped from the end of the source text before the
terminal-punctuation check (`ignore_chars` plus the redundant regex class
at `data_processor.py:143`, whose characters are all already in
`ignore_chars`). -/
def ignoreChar (c : Char) : Bool :=
  c = '\x20' || c = '　' ||
  c = '‘' || c = '’' || c = '“' || c = '”' ||
  c = '\x22' || c = '\x27' || c = '«' || c = '»' ||
  c = '(' || c = ')' || c = '[' || c = ']' || c = '\x7b' || c = '\x7d'

/-- Sentence-terminal punctuation, the regex class `[.!?;:。！？；：…—]`. -/
def terminalPunct (c : Char) : Bool :=
  c = '.' || c = '!' || c = '?' || c = ';' || c = ':' ||
  c = '。' || c = '！' || c = '？' || c = '；' || c = '：' ||
  c = '…' || c = '—'

/-- The external `langdetect.detect` function: returns a language code or
fails with a `LangDetectException` (modelled as `Except.error ()`). -/
def DetectOracle : Type := String → Except Unit String

/-- Configuration consumed by `DataProcessor.__init__`: length bounds, the
completeness filter toggle, batch size and the file structure (skip count,
per-column `enabled`/`index`, source/target language codes). -/
structure ColConf where
  enabled : Bool
  index : Nat
deriving DecidableEq, Repr

structure FileColumns where
  source_doc_id : ColConf
  source_text : ColConf
  target_doc_id : ColConf
  target_text : ColConf
deriving DecidableEq, Repr

structure Config where
  MIN_SENTENCE_LENGTH : Nat
  MAX_SENTENCE_LENGTH : Nat
  FILTER_INCOMPLETE_SENTENCES : Bool
  BATCH_SIZE : Nat
  skip_rows : Nat
  columns : FileColumns
  SOURCE_LANG : String
  TARGET_LANG : String
deriving DecidableEq, Repr

/-- `DataProcessor.is_valid_language`: text stripped to fewer than 10
characters fails outright; a detector exception yields `false`; for
expected language `zh-cn` any of `zh-cn`/`zh-tw`/`zh` is accepted,
otherwise the detected code must equal the expected one. -/
def is_valid_language (det : DetectOracle) (text : String)
    (expected_lang : String) : Bool :=
  if (stripList text.data).length < 10 then false
  else
    match det text with
    | Except.error _ => false
    | Except.ok detected_lang =>
      if expected_lang = "zh-cn" then
        detected_lang == "zh-cn" || detected_lang == "zh-tw" || detected_lang == "zh"
      else detected_lang == expected_lang

/-- Failure reason of validation rule 2 (`data_processor.py:156`). -/
def lengthBelowReason (source_len target_len : Nat) : String :=
  "句子长度小于最小限制（源语言：" ++ toString source_len ++
    "，目标语言：" ++ toString target_len ++ "）"

/-- Failure reason of validation rule 3 (`data_processor.py:159`). -/
def lengthAboveReason (source_len target_len : Nat) : String :=
  "句子长度超过最大限制（源语言：" ++ toString source_len ++
    "，目标语言：" ++ toString target_len ++ "）"

/-- Rule 1 of `validate_sentence_pair` (the completeness filter): `none`
when the rule passes, `some reason` when it fails.  The Python `while` loop
scanning backwards over ignorable characters is `reverse.dropWhile`: the
head of the result is the last non-ignorable character. -/
def completeness_failure (source_text : String) : Option String :=
  if source_text = "" then some "源语言句子为空"
  else
    match source_text.data.reverse.dropWhile ignoreChar with
    | [] => some "源语言句子为空或全为可忽略字符"
    | c :: _ =>
      if terminalPunct c then none
      else some "源语言句子不以标点符号结尾"

/-- Rules 2–4 of `validate_sentence_pair` (length bounds, then language). -/
def lengthAndLanguageCheck (cfg : Config) (det : DetectOracle)
    (source_text target_text : String) : Bool × String :=
  if source_text.length < cfg.MIN_SENTENCE_LENGTH ∨
      target_text.length < cfg.MIN_SENTENCE_LENGTH then
    (false, lengthBelowReason source_text.length target_text.length)
  else if cfg.MAX_SENTENCE_LENGTH < source_text.length ∨
      cfg.MAX_SENTENCE_LENGTH < target_text.length then
    (false, lengthAboveReason source_text.length target_text.length)
  else if !is_valid_language det source_text cfg.SOURCE_LANG then
    (false, "源语言句子语言检测失败")
  else (true, "")

/-- `DataProcessor.validate_sentence_pair` (the unused `doc_id` parameter
of the Python function is omitted). -/
def validate_sentence_pair (cfg : Config) (det : DetectOracle)
    (source_text target_text : String) : Bool × String :=
  if cfg.FILTER_INCOMPLETE_SENTENCES then
    match completeness_failure source_text with
    | some reason => (false, reason)
    | none => lengthAndLanguageCheck cfg det source_text target_text
  else lengthAndLanguageCheck cfg det source_text target_text

/-- One semantic record produced by the row reader (`data` at
`data_processor.py:74`); a disabled column reads as the empty string (the
Python dict simply lacks the key; `process_sentence_pairs_batch` recovers
doc ids with `.get(…, '')`, and the source/target text columns are assumed
enabled — theorems about the pipeline carry that assumption). -/
structure RawRow where
  source_doc_id : String
  source_text : String
  target_doc_id : String
  target_text : String
deriving DecidableEq, Repr

/-- A valid sentence pair as appended at `data_processor.py:191`. -/
structure ValidPair where
  source_doc_id : String
  target_doc_id : String
  source_sentence : String
  target_sentence : String
deriving DecidableEq, Repr

/-- An invalid sentence pair as appended at `data_processor.py:199`. -/
structure InvalidPair where
  source_doc_id : String
  target_doc_id : String
  reason : String
  source : String
  target : String
deriving DecidableEq, Repr

def FileColumns.list (fc : FileColumns) : List ColConf :=
  [fc.source_doc_id, fc.source_text, fc.target_doc_id, fc.target_text]

/-- `max(col['index'] for col in columns if col['enabled'])` over the four
configured columns (meaningful when at least one column is enabled; Python
`max` on an empty sequence raises, handled in `read_excel_file`). -/
def maxColumnIndex (fc : FileColumns) : Nat :=
  (((fc.list).filter (fun c => c.enabled)).map (fun c => c.index)).foldl max 0

def cellAt (row : List String) (i : Nat) : String := row.getD i ""

/-- Extraction of the `data` record from one physical row. -/
def readRaw (fc : FileColumns) (row : List String) : RawRow :=
  { source_doc_id := if fc.source_doc_id.enabled then cellAt row fc.source_doc_id.index else ""
    source_text := if fc.source_text.enabled then cellAt row fc.source_text.index else ""
    target_doc_id := if fc.target_doc_id.enabled then cellAt row fc.target_doc_id.index else ""
    target_text := if fc.target_text.enabled then cellAt row fc.target_text.index else "" }

/-- `all(not v.strip() for v in data.values())`: every enabled cell is
empty after stripping. -/
def blankRow (fc : FileColumns) (row : List String) : Bool :=
  (((fc.list).filter (fun c => c.enabled)).map
    (fun c => cellAt row c.index)).all (fun v => (stripList v.data).isEmpty)

/-- `DataProcessor.read_excel_file` on a sheet given as a list of rows.

Faithful to the source including its skip bug: openpyxl `ws.rows` is a
property returning a fresh generator on every access, so each
`next(ws.rows)` in the skip loop reads (and discards) the first row of a
new iterator, and the main `for row in ws.rows` loop then starts again
from the first physical row.  Consequently the skip loop never advances
the stream: it only raises (`none`) when the sheet is empty and
`skip_rows > 0` (a `StopIteration` inside the generator, re-raised), and
otherwise every physical row is processed.  A row with fewer cells than
`max_column_index + 1` is dropped, as is a row whose enabled cells are all
blank after stripping. -/
def read_excel_file (cfg : Config) (rows : List (List String)) :
    Option (List RawRow) :=
  if 0 < cfg.skip_rows ∧ rows.isEmpty then none
  else if ((cfg.columns.list).filter (fun c => c.enabled)).isEmpty then none
  else some (rows.filterMap (fun row =>
    if maxColumnIndex cfg.columns + 1 ≤ row.length then
      if blankRow cfg.columns row then none
      else some (readRaw cfg.columns row)
    else none))

/-- Classification of one raw row at `data_processor.py:184`–`206`: clean
both sentences, validate, and build the valid or invalid record. -/
def classifyRow (cfg : Config) (det : DetectOracle) (r : RawRow) :
    ValidPair ⊕ InvalidPair :=
  let source_sentence := clean_sentence r.source_text
  let target_sentence := clean_sentence r.target_text
  let res := validate_sentence_pair cfg det source_sentence target_sentence
  if res.1 then
    Sum.inl ⟨r.source_doc_id, r.target_doc_id, source_sentence, target_sentence⟩
  else
    Sum.inr ⟨r.source_doc_id, r.target_doc_id, res.2, source_sentence, target_sentence⟩

/-- The buffer/yield loop of `process_sentence_pairs_batch`: append each
classified row to the valid or invalid buffer; after every row, if the
valid buffer has reached `BATCH_SIZE`, yield both buffers and reset them;
after the stream ends, yield the remaining buffers if either is
non-empty. -/
def batchLoop (cfg : Config) (det : DetectOracle) :
    List RawRow → List ValidPair → List InvalidPair →
    List (List ValidPair × List InvalidPair)
  | [], vb, ib => if vb.isEmpty && ib.isEmpty then [] else [(vb, ib)]
  | r :: rest, vb, ib =>
    match classifyRow cfg det r with
    | Sum.inl v =>
      let vb2 := vb ++ [v]
      if cfg.BATCH_SIZE ≤ vb2.length then (vb2, ib) :: batchLoop cfg det rest [] []
      else batchLoop cfg det rest vb2 ib
    | Sum.inr i =>
      let ib2 := ib ++ [i]
      if cfg.BATCH_SIZE ≤ vb.length then (vb, ib2) :: batchLoop cfg det rest [] []
      else batchLoop cfg det rest vb ib2

/-- `DataProcessor.process_sentence_pairs_batch`: the list of yielded
`(valid, invalid)` batches, or `none` when the reader raises. -/
def process_sentence_pairs_batch (cfg : Config) (det : DetectOracle)
    (rows : List (List String)) :
    Option (List (List ValidPair × List InvalidPair)) :=
  (read_excel_file cfg rows).map (fun rs => batchLoop cfg det rs [] [])

/-- The rows of a record stream that pass validation, as `ValidPair`s, in
order. -/
def validsOf (cfg : Config) (det : DetectOracle) (rs : List RawRow) :
    List ValidPair :=
  rs.filterMap (fun r => (classifyRow cfg det r).getLeft?)

/-- The rows of a record stream that fail validation, as `InvalidPair`s,
in order. -/
def invalidsOf (cfg : Config) (det : DetectOracle) (rs : List RawRow) :
    List InvalidPair :=
  rs.filterMap (fun r => (classifyRow cfg det r).getRight?)

theorem validsOf_cons_inl {cfg : Config} {det : DetectOracle} {r : RawRow}
    {v : ValidPair} (rs : List RawRow)
    (h : classifyRow cfg det r = Sum.inl v) :
    validsOf cfg det (r :: rs) = v :: validsOf cfg det rs := by
  simp [validsOf, List.filterMap_cons, h, Sum.getLeft?]

theorem validsOf_cons_inr {cfg : Config} {det : DetectOracle} {r : RawRow}
    {i : InvalidPair} (rs : List RawRow)
    (h : classifyRow cfg det r = Sum.inr i) :
    validsOf cfg det (r :: rs) = validsOf cfg det rs := by
  simp [validsOf, List.filterMap_cons, h, Sum.getLeft?]

theorem invalidsOf_cons_inl {cfg : Config} {det : DetectOracle} {r : RawRow}
    {v : ValidPair} (rs : List RawRow)
    (h : classifyRow cfg det r = Sum.inl v) :
    invalidsOf cfg det (r :: rs) = invalidsOf cfg det rs := by
  simp [invalidsOf, List.filterMap_cons, h, Sum.getRight?]

theorem invalidsOf_cons_inr {cfg : Config} {det : DetectOracle} {r : RawRow}
    {i : InvalidPair} (rs : List RawRow)
    (h : classifyRow cfg det r = Sum.inr i) :
    invalidsOf cfg det (r :: rs) = i :: invalidsOf cfg det rs := by
  simp [invalidsOf, List.filterMap_cons, h, Sum.getRight?]

theorem batchLoop_flatMap_fst (cfg : Config) (det : DetectOracle) :
    ∀ (rs : List RawRow) (vb : List ValidPair) (ib : List InvalidPair),
      (batchLoop cfg det rs vb ib).flatMap Prod.fst = vb ++ validsOf cfg det rs := by
  intro rs
  induction rs with
  | nil =>
    intro vb ib
    simp only [batchLoop, validsOf, List.filterMap_nil, List.append_nil]
    split
    · next h =>
      have hvb : vb = [] := by
        have := (Bool.and_eq_true _ _).mp h
        exact List.isEmpty_iff.mp this.1
      simp [hvb]
    · simp
  | cons r rest ih =>
    intro vb ib
    cases hc : classifyRow cfg det r with
    | inl v =>
      simp only [batchLoop, hc]
      rw [validsOf_cons_inl rest hc]
      split
      · simp [ih, List.append_assoc]
      · simp [ih, List.append_assoc]
    | inr i =>
      simp only [batchLoop, hc]
      rw [validsOf_cons_inr rest hc]
      split
      · simp [ih]
      · simp [ih]

theorem batchLoop_flatMap_snd (cfg : Config) (det : DetectOracle) :
    ∀ (rs : List RawRow) (vb : List ValidPair) (ib : List InvalidPair),
      (batchLoop cfg det rs vb ib).flatMap Prod.snd = ib ++ invalidsOf cfg det rs := by
  intro rs
  induction rs with
  | nil =>
    intro vb ib
    simp only [batchLoop, invalidsOf, List.filterMap_nil, List.append_nil]
    split
    · next h =>
      have hib : ib = [] := by
        have := (Bool.and_eq_true _ _).mp h
        exact List.isEmpty_iff.mp this.2
      simp [hib]
    · simp
  | cons r rest ih =>
    intro vb ib
    cases hc : classifyRow cfg det r with
    | inl v =>
      simp only [batchLoop, hc]
      rw [invalidsOf_cons_inl rest hc]
      split
      · simp [ih]
      · simp [ih]
    | inr i =>
      simp only [batchLoop, hc]
      rw [invalidsOf_cons_inr rest hc]
      split
      · simp [ih]
      · simp [ih, List.append_assoc]

/-- When the valid buffer can never reach `BATCH_SIZE`, no intermediate
flush happens: everything is emitted in the single final batch (or no
batch at all when there is nothing to emit). -/
theorem batchLoop_no_flush (cfg : Config) (det : DetectOracle) :
    ∀ (rs : List RawRow) (vb : List ValidPair) (ib : List InvalidPair),
      vb.length + (validsOf cfg det rs).length < cfg.BATCH_SIZE →
      batchLoop cfg det rs vb ib =
        if vb.isEmpty && ib.isEmpty && rs.isEmpty then []
        else [(vb ++ validsOf cfg det rs, ib ++ invalidsOf cfg det rs)] := by
  intro rs
  induction rs with
  | nil =>
    intro vb ib _
    simp only [batchLoop, validsOf, invalidsOf, List.filterMap_nil,
      List.append_nil, List.isEmpty_nil, Bool.and_true]
  | cons r rest ih =>
    intro vb ib h
    cases hc : classifyRow cfg det r with
    | inl v =>
      simp only [batchLoop, hc]
      rw [validsOf_cons_inl rest hc] at h
      rw [validsOf_cons_inl rest hc, invalidsOf_cons_inl rest hc]
      simp only [List.length_cons] at h
      have hcond : ¬ (cfg.BATCH_SIZE ≤ (vb ++ [v]).length) := by
        simp only [List.length_append, List.length_cons, List.length_nil]
        omega
      rw [if_neg hcond]
      rw [ih (vb ++ [v]) ib (by
        simp only [List.length_append, List.length_cons, List.length_nil]
        omega)]
      have h1 : (vb ++ [v]).isEmpty = false := by cases vb <;> simp
      have h2 : (r :: rest).isEmpty = false := by simp
      rw [h1, h2]
      simp [List.append_assoc]
    | inr i =>
      simp only [batchLoop, hc]
      rw [validsOf_cons_inr rest hc] at h
      rw [validsOf_cons_inr rest hc, invalidsOf_cons_inr rest hc]
      have hcond : ¬ (cfg.BATCH_SIZE ≤ vb.length) := by omega
      rw [if_neg hcond]
      rw [ih vb (ib ++ [i]) h]
      have h1 : (ib ++ [i]).isEmpty = false := by cases ib <;> simp
      have h2 : (r :: rest).isEmpty = false := by simp
      rw [h1, h2]
      simp [List.append_assoc]

/-- Starting below the threshold, every yielded batch except possibly the
last holds exactly `BATCH_SIZE` valid pairs. -/
theorem batchLoop_sizes (cfg : Config) (det : DetectOracle) :
    ∀ (rs : List RawRow) (vb : List ValidPair) (ib : List InvalidPair),
      vb.length < cfg.BATCH_SIZE →
      ∀ i, i + 1 < (batchLoop cfg det rs vb ib).length →
        ((batchLoop cfg det rs vb ib).getD i ([], [])).1.length = cfg.BATCH_SIZE := by
  intro rs
  induction rs with
  | nil =>
    intro vb ib hvb i hi
    exfalso
    simp only [batchLoop] at hi
    split at hi <;> simp at hi
  | cons r rest ih =>
    intro vb ib hvb i hi
    cases hc : classifyRow cfg det r with
    | inl v =>
      simp only [batchLoop, hc] at hi ⊢
      by_cases hf : cfg.BATCH_SIZE ≤ (vb ++ [v]).length
      · rw [if_pos hf] at hi ⊢
        have hlen : (vb ++ [v]).length = cfg.BATCH_SIZE := by
          simp only [List.length_append, List.length_cons, List.length_nil] at hf ⊢
          omega
        cases i with
        | zero => simp [hlen]
        | succ j =>
          simp only [List.getD_cons_succ]
          apply ih [] [] (by simp only [List.length_nil]; omega) j
          simp only [List.length_cons] at hi
          omega
      · rw [if_neg hf] at hi ⊢
        apply ih (vb ++ [v]) ib (by
          simp only [List.length_append, List.length_cons, List.length_nil] at hf ⊢
          omega) i hi
    | inr i2 =>
      simp only [batchLoop, hc] at hi ⊢
      rw [if_neg (by omega)] at hi ⊢
      exact ih vb (ib ++ [i2]) hvb i hi

/-- All four columns enabled at indices 0–3 (the default file structure). -/
def colsAll : FileColumns :=
  ⟨⟨true, 0⟩, ⟨true, 1⟩, ⟨true, 2⟩, ⟨true, 3⟩⟩

/-- Configuration of Scenario A: `skip_rows = 2`, `min_sentence_length = 10`,
`batch_size = 50`, remaining fields at their code defaults. -/
def cfgA : Config :=
  { MIN_SENTENCE_LENGTH := 10
    MAX_SENTENCE_LENGTH := 500
    FILTER_INCOMPLETE_SENTENCES := true
    BATCH_SIZE := 50
    skip_rows := 2
    columns := colsAll
    SOURCE_LANG := "en"
    TARGET_LANG := "zh-cn" }

/-- Detector that always answers `en`. -/
def detEn : DetectOracle := fun _ => Except.ok "en"

/-- Detector that always fails with a `LangDetectException`. -/
def detErr : DetectOracle := fun _ => Except.error ()

theorem rs_nonempty_of_invalids {cfg : Config} {det : DetectOracle}
    {rs : List RawRow} (h : invalidsOf cfg det rs ≠ []) : rs.isEmpty = false := by
  cases rs with
  | nil => exact absurd rfl h
  | cons a l => rfl

/-- C1: for every input file read successfully and every valid
`batch_size` (at least 1; the configuration layer enforces 50–2000),
concatenating the valid-pair lists across all yielded batches, in order,
reproduces exactly the records that pass validation, in original order,
and likewise the invalid-pair lists reproduce exactly the records that
fail validation; when no record is valid and at least one is invalid,
exactly one batch is yielded, holding the empty valid list and all invalid
pairs.  (The source/target text columns are assumed enabled; the Python
code would raise a `KeyError` otherwise.) -/
theorem c1_batch_completeness (cfg : Config) (det : DetectOracle)
    (rows : List (List String)) (rs : List RawRow)
    (hb : 1 ≤ cfg.BATCH_SIZE)
    (_hsrc : cfg.columns.source_text.enabled = true)
    (_htgt : cfg.columns.target_text.enabled = true)
    (hr : read_excel_file cfg rows = some rs) :
    process_sentence_pairs_batch cfg det rows =
      some (batchLoop cfg det rs [] []) ∧
    (batchLoop cfg det rs [] []).flatMap Prod.fst = validsOf cfg det rs ∧
    (batchLoop cfg det rs [] []).flatMap Prod.snd = invalidsOf cfg det rs ∧
    (validsOf cfg det rs = [] → invalidsOf cfg det rs ≠ [] →
      batchLoop cfg det rs [] [] = [([], invalidsOf cfg det rs)]) := by
  refine ⟨?_, ?_, ?_, ?_⟩
  · simp [process_sentence_pairs_batch, hr]
  · simpa using batchLoop_flatMap_fst cfg det rs [] []
  · simpa using batchLoop_flatMap_snd cfg det rs [] []
  · intro hv hi
    rw [batchLoop_no_flush cfg det rs [] [] (by
      simp only [List.length_nil, hv]
      omega)]
    rw [rs_nonempty_of_invalids hi]
    simp [hv]

/-- Input for the C1 witness: one data row whose source fails the
completeness rule. -/
def rowsC1w : List (List String) := [["d", "nope", "t", "x"]]

def cfgC1w : Config :=
  { cfgA with skip_rows := 0, BATCH_SIZE := 2 }

def rsC1w : List RawRow := [⟨"d", "nope", "t", "x"⟩]

theorem c1_batch_completeness_witness :
    process_sentence_pairs_batch cfgC1w detEn rowsC1w =
      some [([], [⟨"d", "t", "源语言句子不以标点符号结尾", "nope", "x"⟩])] := by
  have h := c1_batch_completeness cfgC1w detEn rowsC1w rsC1w
    (by decide) (by decide) (by decide) (by decide)
  rw [h.1, h.2.2.2 (by decide) (by decide)]
  decide

/-- Configuration for the first C2 counterexample: a valid `batch_size`
(50) and no leading metadata rows. -/
def cfgC2a : Config := { cfgA with skip_rows := 0 }

/-- Configuration for the second C2 counterexample: `batch_size = 0`. -/
def cfgC2b : Config :=
  { cfgA with skip_rows := 0, BATCH_SIZE := 0, MIN_SENTENCE_LENGTH := 2 }

/-- Two rows that pass every validation rule under `detEn`. -/
def rowsC2b : List (List String) :=
  [["a", "Hello there world.", "b", "这是一个很长的目标句子。"],
   ["c", "Hello there again.", "d", "这是一个很长的目标句子。"]]

/-- C2 counterexample: the claim quantifies over every input file and
every `batch_size`, but (1) an empty input file has 0 valid rows, fewer
than `batch_size = 50`, yet zero batches are yielded rather than exactly
one; and (2) with `batch_size = 0` and two valid rows, two batches are
yielded and the first (not the last) holds 1 ≠ 0 valid pairs. -/
theorem c2_batch_sizing_counterexample :
    (process_sentence_pairs_batch cfgC2a detEn []).map List.length = some 0 ∧
    (process_sentence_pairs_batch cfgC2b detEn rowsC2b).map
      (fun bs => bs.map (fun p => p.1.length)) = some [1, 1] ∧
    cfgC2b.BATCH_SIZE = 0 := by
  decide

/-- C2 (amended): for every input file read successfully and every
`batch_size ≥ 1`, every yielded batch except possibly the last holds
exactly `batch_size` valid pairs; and when the total valid-row count is
smaller than `batch_size`, at most one batch is yielded — exactly one with
all valid rows if the reader produced any record at all, and none for an
input with no records. -/
theorem c2_amended_batch_sizing (cfg : Config) (det : DetectOracle)
    (rows : List (List String)) (rs : List RawRow)
    (hb : 1 ≤ cfg.BATCH_SIZE)
    (hr : read_excel_file cfg rows = some rs) :
    process_sentence_pairs_batch cfg det rows =
      some (batchLoop cfg det rs [] []) ∧
    (∀ i, i + 1 < (batchLoop cfg det rs [] []).length →
      ((batchLoop cfg det rs [] []).getD i ([], [])).1.length = cfg.BATCH_SIZE) ∧
    ((validsOf cfg det rs).length < cfg.BATCH_SIZE →
      batchLoop cfg det rs [] [] =
        if rs.isEmpty then [] else [(validsOf cfg det rs, invalidsOf cfg det rs)]) := by
  refine ⟨by simp [process_sentence_pairs_batch, hr], ?_, ?_⟩
  · intro i hi
    exact batchLoop_sizes cfg det rs [] []
      (by simp only [List.length_nil]; omega) i hi
  · intro hlen
    rw [batchLoop_no_flush cfg det rs [] []
      (by simp only [List.length_nil]; omega)]
    cases rs <;> simp

/-- Scenario C of the specification: `batch_size = 1`, three valid rows. -/
def cfgC2w : Config :=
  { cfgA with skip_rows := 0, BATCH_SIZE := 1, MIN_SENTENCE_LENGTH := 2 }

def rowsC2w : List (List String) :=
  [["a", "Hello there world.", "b", "这是一个很长的目标句子。"],
   ["c", "Hello there again.", "d", "这是一个很长的目标句子。"],
   ["e", "Hello there thrice.", "f", "这是一个很长的目标句子。"]]

def rsC2w : List RawRow :=
  [⟨"a", "Hello there world.", "b", "这是一个很长的目标句子。"⟩,
   ⟨"c", "Hello there again.", "d", "这是一个很长的目标句子。"⟩,
   ⟨"e", "Hello there thrice.", "f", "这是一个很长的目标句子。"⟩]

theorem c2_amended_batch_sizing_witness :
    process_sentence_pairs_batch cfgC2w detEn rowsC2w =
      some (batchLoop cfgC2w detEn rsC2w [] []) ∧
    ((batchLoop cfgC2w detEn rsC2w [] []).getD 0 ([], [])).1.length =
      cfgC2w.BATCH_SIZE := by
  have h := c2_amended_batch_sizing cfgC2w detEn rowsC2w rsC2w
    (by decide) (by decide)
  exact ⟨h.1, h.2.1 0 (by decide)⟩

/-- A sheet whose first two rows (the rows `skip_rows = 2` is meant to
discard) are full four-column rows. -/
def rowsC3 : List (List String) :=
  [["h1", "Header one.", "h2", "标题行。"],
   ["d1", "Hello there.", "t1", "你好。"]]

/-- C3: evaluation of the reader at a sheet with `skip_rows = 2`.  The
claim says no record is yielded for the first `skip_rows` rows; the code
yields records for both leading rows, because each `next(ws.rows)` in the
skip loop reads the first row of a *fresh* openpyxl row generator (`.rows`
is a property) and the main loop then iterates another fresh generator
from the first physical row, so the skip loop discards nothing. -/
theorem c3_skip_rows_eval :
    read_excel_file cfgA rowsC3 =
      some [⟨"h1", "Header one.", "h2", "标题行。"⟩,
            ⟨"d1", "Hello there.", "t1", "你好。"⟩] := by
  decide

/-- Scenario A input: two leading metadata rows (dropped by the reader for
having fewer than four cells) followed by the two data rows of the claim. -/
def rowsA : List (List String) :=
  [["x"], ["y"],
   ["d1", "Hello world.", "t1", "你好世界。"],
   ["d2", "short", "t2", "短"]]

/-- Row 1 of Scenario A as the invalid record the code actually produces:
its target "你好世界。" has 5 characters, below `min_sentence_length = 10`. -/
def ipC4a : InvalidPair :=
  ⟨"d1", "t1", "句子长度小于最小限制（源语言：12，目标语言：5）",
   "Hello world.", "你好世界。"⟩

/-- Row 2 of Scenario A as the invalid record the code actually produces:
"short" does not end in terminal punctuation, so rule 1 (the completeness
filter, on by default) rejects it before the length rule is reached. -/
def ipC4b : InvalidPair :=
  ⟨"d2", "t2", "源语言句子不以标点符号结尾", "short", "短"⟩

/-- C4 counterexample: on the Scenario A input the single yielded batch
has an *empty* valid list — not `[row 1]` as claimed — because row 1's
target is shorter than `min_sentence_length`; row 2's reason cites the
terminal-punctuation rule, not the minimum length. -/
theorem c4_scenario_a_counterexample :
    process_sentence_pairs_batch cfgA detEn rowsA =
      some [([], [ipC4a, ipC4b])] ∧
    ([] : List ValidPair) ≠ [(⟨"d1", "t1", "Hello world.", "你好世界。"⟩ : ValidPair)] := by
  decide

/-- C4 (amended): on the Scenario A input (`skip_rows = 2`,
`min_sentence_length = 10`, `batch_size = 50`, remaining settings at their
defaults) the pipeline yields exactly one batch whose valid list is empty
and whose invalid list is `[row 1 with the minimum-length reason, row 2
with the terminal-punctuation reason]`: row 1 fails because its target
"你好世界。" has only 5 < 10 characters, and row 2 fails the completeness
rule before the length rule is evaluated. -/
theorem c4_scenario_a_amended :
    process_sentence_pairs_batch cfgA detEn rowsA =
      some [([], [ipC4a, ipC4b])] := by
  decide

theorem lengthBelowReason_ne_empty (sl tl : Nat) :
    lengthBelowReason sl tl ≠ "" := by
  intro h
  have hlen := congrArg String.length h
  simp only [lengthBelowReason, String.length_append] at hlen
  have h0 : 0 < ("句子长度小于最小限制（源语言：" : String).length := by decide
  have h1 : ("" : String).length = 0 := by decide
  omega

theorem lengthAboveReason_ne_empty (sl tl : Nat) :
    lengthAboveReason sl tl ≠ "" := by
  intro h
  have hlen := congrArg String.length h
  simp only [lengthAboveReason, String.length_append] at hlen
  have h0 : 0 < ("句子长度超过最大限制（源语言：" : String).length := by decide
  have h1 : ("" : String).length = 0 := by decide
  omega

theorem completeness_failure_ne_empty (s : String) (r : String)
    (h : completeness_failure s = some r) : r ≠ "" := by
  unfold completeness_failure at h
  split at h
  · cases h
    decide
  · split at h
    · cases h
      decide
    · split at h
      · cases h
      · cases h
        decide

theorem lengthAndLanguageCheck_reason_ne_empty (cfg : Config)
    (det : DetectOracle) (s t : String)
    (hf : (lengthAndLanguageCheck cfg det s t).1 = false) :
    (lengthAndLanguageCheck cfg det s t).2 ≠ "" := by
  unfold lengthAndLanguageCheck at hf ⊢
  by_cases hmin : s.length < cfg.MIN_SENTENCE_LENGTH ∨
      t.length < cfg.MIN_SENTENCE_LENGTH
  · rw [if_pos hmin]
    exact lengthBelowReason_ne_empty _ _
  · rw [if_neg hmin] at hf ⊢
    by_cases hmax : cfg.MAX_SENTENCE_LENGTH < s.length ∨
        cfg.MAX_SENTENCE_LENGTH < t.length
    · rw [if_pos hmax]
      exact lengthAboveReason_ne_empty _ _
    · rw [if_neg hmax] at hf ⊢
      by_cases hlang : (!is_valid_language det s cfg.SOURCE_LANG) = true
      · rw [if_pos hlang]
        decide
      · rw [if_neg hlang] at hf
        exact absurd hf (by decide)

/-- Whenever `validate_sentence_pair` reports failure, the reason is a
non-empty string. -/
theorem validate_false_reason_ne_empty (cfg : Config) (det : DetectOracle)
    (s t : String) (hf : (validate_sentence_pair cfg det s t).1 = false) :
    (validate_sentence_pair cfg det s t).2 ≠ "" := by
  unfold validate_sentence_pair at hf ⊢
  by_cases hfil : cfg.FILTER_INCOMPLETE_SENTENCES = true
  · rw [if_pos hfil] at hf ⊢
    revert hf
    cases hcf : completeness_failure s with
    | some r =>
      intro _
      exact completeness_failure_ne_empty s r hcf
    | none =>
      intro hf
      exact lengthAndLanguageCheck_reason_ne_empty cfg det s t hf
  · rw [if_neg hfil] at hf ⊢
    exact lengthAndLanguageCheck_reason_ne_empty cfg det s t hf

/-- When rule 1 passes (or the filter is off), validation reduces to the
length/language checks. -/
theorem validate_eq_check_of_rule1_pass (cfg : Config) (det : DetectOracle)
    (s t : String)
    (h1 : cfg.FILTER_INCOMPLETE_SENTENCES = false ∨ completeness_failure s = none) :
    validate_sentence_pair cfg det s t = lengthAndLanguageCheck cfg det s t := by
  unfold validate_sentence_pair
  rcases h1 with h | h
  · rw [h]
    simp
  · by_cases hfil : cfg.FILTER_INCOMPLETE_SENTENCES = true
    · rw [if_pos hfil, h]
    · rw [if_neg hfil]

/-- Under a length violation the length/language stage returns the
min-length reason when the minimum is violated, otherwise the max-length
reason, independently of the detector. -/
theorem lengthAndLanguageCheck_violation (cfg : Config) (det : DetectOracle)
    (s t : String)
    (hlen : s.length < cfg.MIN_SENTENCE_LENGTH ∨
            t.length < cfg.MIN_SENTENCE_LENGTH ∨
            cfg.MAX_SENTENCE_LENGTH < s.length ∨
            cfg.MAX_SENTENCE_LENGTH < t.length) :
    lengthAndLanguageCheck cfg det s t =
      if s.length < cfg.MIN_SENTENCE_LENGTH ∨ t.length < cfg.MIN_SENTENCE_LENGTH then
        (false, lengthBelowReason s.length t.length)
      else (false, lengthAboveReason s.length t.length) := by
  unfold lengthAndLanguageCheck
  by_cases hmin : s.length < cfg.MIN_SENTENCE_LENGTH ∨
      t.length < cfg.MIN_SENTENCE_LENGTH
  · rw [if_pos hmin, if_pos hmin]
  · rw [if_neg hmin, if_neg hmin, if_pos (by tauto)]

/-- C7: validation rules are evaluated in the fixed order completeness →
min-length → max-length → language with first-failure-wins
short-circuiting: whenever rule 1 passes and a length rule is violated,
the result is the length-rule reason — the min-length reason when the
minimum is violated, else the max-length reason — never the language
reason, and the result does not depend on the language detector at all. -/
theorem c7_rule_ordering (cfg : Config) (det det2 : DetectOracle)
    (s t : String)
    (h1 : cfg.FILTER_INCOMPLETE_SENTENCES = false ∨ completeness_failure s = none)
    (hlen : s.length < cfg.MIN_SENTENCE_LENGTH ∨
            t.length < cfg.MIN_SENTENCE_LENGTH ∨
            cfg.MAX_SENTENCE_LENGTH < s.length ∨
            cfg.MAX_SENTENCE_LENGTH < t.length) :
    validate_sentence_pair cfg det s t =
      (if s.length < cfg.MIN_SENTENCE_LENGTH ∨ t.length < cfg.MIN_SENTENCE_LENGTH then
        (false, lengthBelowReason s.length t.length)
      else (false, lengthAboveReason s.length t.length)) ∧
    validate_sentence_pair cfg det s t = validate_sentence_pair cfg det2 s t := by
  have k1 := validate_eq_check_of_rule1_pass cfg det s t h1
  have k2 := validate_eq_check_of_rule1_pass cfg det2 s t h1
  have v1 := lengthAndLanguageCheck_violation cfg det s t hlen
  have v2 := lengthAndLanguageCheck_violation cfg det2 s t hlen
  refine ⟨by rw [k1, v1], by rw [k1, v1, k2, v2]⟩

theorem c7_rule_ordering_witness :
    validate_sentence_pair cfgA detEn "Hi." "ok" =
      (false, "句子长度小于最小限制（源语言：3，目标语言：2）") ∧
    validate_sentence_pair cfgA detEn "Hi." "ok" =
      validate_sentence_pair cfgA detErr "Hi." "ok" := by
  have h := c7_rule_ordering cfgA detEn detErr "Hi." "ok"
    (Or.inr (by decide)) (Or.inl (by decide))
  refine ⟨?_, h.2⟩
  rw [h.1]
  decide

theorem completeness_failure_of_not_terminal (s : String) (c : Char)
    (hc : (s.data.reverse.dropWhile ignoreChar).head? = some c)
    (hterm : terminalPunct c = false) :
    completeness_failure s = some "源语言句子不以标点符号结尾" := by
  unfold completeness_failure
  have hne : s ≠ "" := by
    intro h0
    subst h0
    exact Option.noConfusion hc
  rw [if_neg hne]
  revert hc
  cases hl : s.data.reverse.dropWhile ignoreChar with
  | nil =>
    intro hc
    exact absurd hc (by simp)
  | cons a tail =>
    intro hc
    simp only [List.head?_cons, Option.some.injEq] at hc
    subst hc
    simp [hterm]

theorem completeness_failure_of_all_ignorable (s : String) (hne : s ≠ "")
    (hl : s.data.reverse.dropWhile ignoreChar = []) :
    completeness_failure s = some "源语言句子为空或全为可忽略字符" := by
  unfold completeness_failure
  rw [if_neg hne, hl]

theorem validate_of_completeness_some (cfg : Config) (det : DetectOracle)
    (s t r : String) (hfil : cfg.FILTER_INCOMPLETE_SENTENCES = true)
    (h : completeness_failure s = some r) :
    validate_sentence_pair cfg det s t = (false, r) := by
  unfold validate_sentence_pair
  rw [if_pos hfil, h]

/-- C8: with the completeness filter enabled, a source text whose last
character after skipping trailing ignorable characters is not
sentence-terminal punctuation is rejected with the punctuation-terminal
reason, regardless of any length (none of the length rules is reached);
text that is empty, or empty after skipping ignorables, also fails this
first rule. -/
theorem c8_punctuation_terminal (cfg : Config) (det : DetectOracle)
    (s t : String) (hfil : cfg.FILTER_INCOMPLETE_SENTENCES = true) :
    (∀ c, (s.data.reverse.dropWhile ignoreChar).head? = some c →
      terminalPunct c = false →
      validate_sentence_pair cfg det s t = (false, "源语言句子不以标点符号结尾")) ∧
    (s ≠ "" → s.data.reverse.dropWhile ignoreChar = [] →
      validate_sentence_pair cfg det s t = (false, "源语言句子为空或全为可忽略字符")) ∧
    (s = "" → validate_sentence_pair cfg det s t = (false, "源语言句子为空")) := by
  refine ⟨?_, ?_, ?_⟩
  · intro c hc hterm
    exact validate_of_completeness_some cfg det s t _ hfil
      (completeness_failure_of_not_terminal s c hc hterm)
  · intro hne hl
    exact validate_of_completeness_some cfg det s t _ hfil
      (completeness_failure_of_all_ignorable s hne hl)
  · intro h0
    subst h0
    exact validate_of_completeness_some cfg det "" t _ hfil (by decide)

theorem c8_punctuation_terminal_witness :
    validate_sentence_pair cfgA detEn "Summary" "这是一个很长的目标句子。" =
      (false, "源语言句子不以标点符号结尾") := by
  exact (c8_punctuation_terminal cfgA detEn "Summary" "这是一个很长的目标句子。"
    (by decide)).1 'y' (by decide) (by decide)

/-- C9: validation is a total function — it returns `(false, reason)` with
a non-empty reason for every rule violation instead of raising — and a
failure of the external language detector (`Except.error`, the model of
`LangDetectException`) is caught inside `is_valid_language` and surfaces
as the rule-4 language-validation failure whenever rules 1–3 pass. -/
theorem c9_detection_failure (cfg : Config) (det : DetectOracle)
    (s t : String)
    (h1 : cfg.FILTER_INCOMPLETE_SENTENCES = false ∨ completeness_failure s = none)
    (hmin : cfg.MIN_SENTENCE_LENGTH ≤ s.length ∧ cfg.MIN_SENTENCE_LENGTH ≤ t.length)
    (hmax : s.length ≤ cfg.MAX_SENTENCE_LENGTH ∧ t.length ≤ cfg.MAX_SENTENCE_LENGTH)
    (herr : det s = Except.error ()) :
    validate_sentence_pair cfg det s t = (false, "源语言句子语言检测失败") ∧
    ∀ (det2 : DetectOracle) (s2 t2 : String),
      (validate_sentence_pair cfg det2 s2 t2).1 = false →
      (validate_sentence_pair cfg det2 s2 t2).2 ≠ "" := by
  constructor
  · rw [validate_eq_check_of_rule1_pass cfg det s t h1]
    unfold lengthAndLanguageCheck
    rw [if_neg (by omega), if_neg (by omega)]
    have hlang : is_valid_language det s cfg.SOURCE_LANG = false := by
      unfold is_valid_language
      split
      · rfl
      · rw [herr]
    simp [hlang]
  · intro det2 s2 t2
    exact validate_false_reason_ne_empty cfg det2 s2 t2

theorem c9_detection_failure_witness :
    validate_sentence_pair cfgA detErr "Hello there world." "Hello there again." =
      (false, "源语言句子语言检测失败") := by
  exact (c9_detection_failure cfgA detErr "Hello there world." "Hello there again."
    (Or.inr (by decide)) (by decide) (by decide) rfl).1

/-- Configuration with `min_sentence_length = 2`, below the hard-coded
threshold of 10 inside `is_valid_language`. -/
def cfgC10w : Config := { cfgA with MIN_SENTENCE_LENGTH := 2 }

/-- C10: the language check fails unconditionally for any source text
whose stripped length is below 10 — a hard-coded threshold independent of
configuration and of the detector — so whenever rules 1–3 pass (in
particular with `min_sentence_length` configured below 10) such a pair is
classified invalid with the language reason. -/
theorem c10_hardcoded_language_minimum (cfg : Config) (det : DetectOracle)
    (s t : String)
    (h1 : cfg.FILTER_INCOMPLETE_SENTENCES = false ∨ completeness_failure s = none)
    (hmin : cfg.MIN_SENTENCE_LENGTH ≤ s.length ∧ cfg.MIN_SENTENCE_LENGTH ≤ t.length)
    (hmax : s.length ≤ cfg.MAX_SENTENCE_LENGTH ∧ t.length ≤ cfg.MAX_SENTENCE_LENGTH)
    (hshort : (stripList s.data).length < 10) :
    is_valid_language det s cfg.SOURCE_LANG = false ∧
    validate_sentence_pair cfg det s t = (false, "源语言句子语言检测失败") := by
  have hlang : is_valid_language det s cfg.SOURCE_LANG = false := by
    unfold is_valid_language
    rw [if_pos hshort]
  refine ⟨hlang, ?_⟩
  rw [validate_eq_check_of_rule1_pass cfg det s t h1]
  unfold lengthAndLanguageCheck
  rw [if_neg (by omega), if_neg (by omega)]
  simp [hlang]

theorem c10_hardcoded_language_minimum_witness :
    cfgC10w.MIN_SENTENCE_LENGTH < 10 ∧
    is_valid_language detEn "ab cd." cfgC10w.SOURCE_LANG = false ∧
    validate_sentence_pair cfgC10w detEn "ab cd." "abcd" =
      (false, "源语言句子语言检测失败") := by
  have h := c10_hardcoded_language_minimum cfgC10w detEn "ab cd." "abcd"
    (Or.inr (by decide)) (by decide) (by decide) (by decide)
  exact ⟨by decide, h.1, h.2⟩

theorem head?_dropWhile_not {α : Type} (p : α → Bool) :
    ∀ (l : List α) (c : α), (l.dropWhile p).head? = some c → p c = false := by
  intro l
  induction l with
  | nil => intro c h; exact Option.noConfusion h
  | cons a tail ih =>
    intro c h
    rw [List.dropWhile_cons] at h
    by_cases hp : p a = true
    · rw [if_pos hp] at h
      exact ih c h
    · rw [if_neg hp] at h
      rw [List.head?_cons, Option.some.injEq] at h
      subst h
      exact Bool.not_eq_true _ |>.mp hp

theorem getLast?_cons_of_ne_nil {α : Type} (a : α) (tail : List α)
    (h : tail ≠ []) : (a :: tail).getLast? = tail.getLast? := by
  cases tail with
  | nil => exact absurd rfl h
  | cons b t2 => exact List.getLast?_cons_cons

theorem getLast?_dropWhile_of_ne_nil {α : Type} (p : α → Bool) :
    ∀ l : List α, l.dropWhile p ≠ [] →
      (l.dropWhile p).getLast? = l.getLast? := by
  intro l
  induction l with
  | nil => intro h; exact absurd rfl h
  | cons a tail ih =>
    intro h
    rw [List.dropWhile_cons] at h ⊢
    by_cases hp : p a = true
    · rw [if_pos hp] at h ⊢
      have htail : tail ≠ [] := by
        intro h0
        rw [h0] at h
        exact h rfl
      rw [ih h, getLast?_cons_of_ne_nil a tail htail]
    · rw [if_neg hp]

theorem head?_stripList (l : List Char) (c : Char)
    (h : (stripList l).head? = some c) : pyIsSpace c = false := by
  unfold stripList at h
  rw [List.head?_reverse] at h
  have hne : (l.dropWhile pyIsSpace).reverse.dropWhile pyIsSpace ≠ [] := by
    intro h0
    rw [h0] at h
    exact Option.noConfusion h
  rw [getLast?_dropWhile_of_ne_nil pyIsSpace _ hne, List.getLast?_reverse] at h
  exact head?_dropWhile_not pyIsSpace l c h

theorem getLast?_stripList (l : List Char) (c : Char)
    (h : (stripList l).getLast? = some c) : pyIsSpace c = false := by
  unfold stripList at h
  rw [List.getLast?_reverse] at h
  exact head?_dropWhile_not pyIsSpace _ c h

theorem dropWhile_eq_self_of_head {α : Type} (p : α → Bool) (l : List α)
    (h : ∀ c, l.head? = some c → p c = false) : l.dropWhile p = l := by
  cases l with
  | nil => rfl
  | cons a tail =>
    have ha := h a rfl
    simp [List.dropWhile_cons, ha]

theorem stripList_eq_self (l : List Char)
    (h1 : ∀ c, l.head? = some c → pyIsSpace c = false)
    (h2 : ∀ c, l.getLast? = some c → pyIsSpace c = false) :
    stripList l = l := by
  unfold stripList
  rw [dropWhile_eq_self_of_head pyIsSpace l h1]
  rw [dropWhile_eq_self_of_head pyIsSpace l.reverse (by
    intro c hc
    rw [List.head?_reverse] at hc
    exact h2 c hc)]
  exact List.reverse_reverse l

theorem collapseAux_head (l : List Char) (b : Bool) (c : Char)
    (h : l.head? = some c) (hc : pyIsSpace c = false) :
    (collapseAux l b).head? = some c := by
  cases l with
  | nil => exact Option.noConfusion h
  | cons a tail =>
    rw [List.head?_cons, Option.some.injEq] at h
    subst h
    simp [collapseAux, hc]

theorem collapseAux_getLast (c : Char) (hc : pyIsSpace c = false) :
    ∀ (l : List Char) (b : Bool), l.getLast? = some c →
      (collapseAux l b).getLast? = some c := by
  intro l
  induction l with
  | nil => intro b h; exact Option.noConfusion h
  | cons a tail ih =>
    intro b h
    cases tail with
    | nil =>
      rw [List.getLast?_singleton, Option.some.injEq] at h
      subst h
      simp [collapseAux, hc]
    | cons a2 tail2 =>
      rw [List.getLast?_cons_cons] at h
      rw [collapseAux]
      by_cases ha : pyIsSpace a = true
      · rw [if_pos ha]
        cases b with
        | true =>
          rw [if_pos rfl]
          exact ih true h
        | false =>
          rw [if_neg (by exact Bool.false_ne_true)]
          have h2 := ih true h
          cases hxs : collapseAux (a2 :: tail2) true with
          | nil =>
            rw [hxs] at h2
            exact Option.noConfusion h2
          | cons y ys =>
            rw [hxs] at h2
            rw [List.getLast?_cons_cons]
            exact h2
      · rw [if_neg ha]
        have h2 := ih false h
        cases hxs : collapseAux (a2 :: tail2) false with
        | nil =>
          rw [hxs] at h2
          exact Option.noConfusion h2
        | cons y ys =>
          rw [hxs] at h2
          rw [List.getLast?_cons_cons]
          exact h2

theorem collapseAux_idem : ∀ (l : List Char) (b : Bool),
    collapseAux (collapseAux l b) b = collapseAux l b := by
  intro l
  induction l with
  | nil => intro b; rfl
  | cons a tail ih =>
    intro b
    by_cases ha : pyIsSpace a = true
    · cases b with
      | true =>
        rw [collapseAux, if_pos ha, if_pos rfl]
        exact ih true
      | false =>
        rw [collapseAux, if_pos ha, if_neg (by exact Bool.false_ne_true)]
        rw [collapseAux, if_pos (by decide), if_neg (by exact Bool.false_ne_true)]
        rw [ih true]
    · rw [collapseAux, if_neg ha]
      rw [collapseAux, if_neg ha]
      rw [ih false]

theorem mem_collapseAux : ∀ (l : List Char) (b : Bool) (c : Char),
    c ∈ collapseAux l b → c ∈ l ∨ c = ' ' := by
  intro l
  induction l with
  | nil => intro b c h; exact absurd h (List.not_mem_nil c)
  | cons a tail ih =>
    intro b c h
    rw [collapseAux] at h
    by_cases ha : pyIsSpace a = true
    · rw [if_pos ha] at h
      cases b with
      | true =>
        rw [if_pos rfl] at h
        rcases ih true c h with h0 | h0
        · exact Or.inl (List.mem_cons_of_mem a h0)
        · exact Or.inr h0
      | false =>
        rw [if_neg (by exact Bool.false_ne_true)] at h
        rcases List.mem_cons.mp h with h0 | h0
        · exact Or.inr h0
        · rcases ih true c h0 with h1 | h1
          · exact Or.inl (List.mem_cons_of_mem a h1)
          · exact Or.inr h1
    · rw [if_neg ha] at h
      rcases List.mem_cons.mp h with h0 | h0
      · exact Or.inl (h0 ▸ List.mem_cons_self a tail)
      · rcases ih false c h0 with h1 | h1
        · exact Or.inl (List.mem_cons_of_mem a h1)
        · exact Or.inr h1

theorem collapseAux_head_true_not_space :
    ∀ (l : List Char) (c : Char), (collapseAux l true).head? = some c →
      pyIsSpace c = false := by
  intro l
  induction l with
  | nil => intro c h; exact Option.noConfusion h
  | cons a tail ih =>
    intro c h
    rw [collapseAux] at h
    by_cases ha : pyIsSpace a = true
    · rw [if_pos ha, if_pos rfl] at h
      exact ih c h
    · rw [if_neg ha, List.head?_cons, Option.some.injEq] at h
      subst h
      exact Bool.not_eq_true _ |>.mp ha

theorem hasDoubleSpace_collapseAux : ∀ (l : List Char) (b : Bool),
    hasDoubleSpace (collapseAux l b) = false := by
  intro l
  induction l with
  | nil => intro b; rfl
  | cons a tail ih =>
    intro b
    by_cases ha : pyIsSpace a = true
    · cases b with
      | true =>
        rw [collapseAux, if_pos ha, if_pos rfl]
        exact ih true
      | false =>
        rw [collapseAux, if_pos ha, if_neg (by exact Bool.false_ne_true)]
        cases hxs : collapseAux tail true with
        | nil => rfl
        | cons y ys =>
          have hy : pyIsSpace y = false :=
            collapseAux_head_true_not_space tail y (by rw [hxs]; rfl)
          have hyne : ¬ (y = ' ') := by
            intro h0
            rw [h0] at hy
            exact absurd hy (by decide)
          rw [hasDoubleSpace, ← hxs, ih true]
          simp [hyne]
    · rw [collapseAux, if_neg ha]
      cases hxs : collapseAux tail false with
      | nil => rfl
      | cons y ys =>
        have hane : ¬ (a = ' ') := by
          intro h0
          rw [h0] at ha
          exact ha (by decide)
        rw [hasDoubleSpace, ← hxs, ih false]
        simp [hane]

theorem mem_stripMarkersF : ∀ (f : Nat) (l : List Char) (c : Char),
    c ∈ stripMarkersF f l → c ∈ l := by
  intro f
  induction f with
  | zero => intro l c h; exact h
  | succ f ih =>
    intro l c h
    cases l with
    | nil => exact h
    | cons a rest =>
      rw [stripMarkersF] at h
      split at h
      · exact List.drop_subset 3 (a :: rest) (ih _ c h)
      · split at h
        · exact List.drop_subset 4 (a :: rest) (ih _ c h)
        · split at h
          · have h1 := ih _ c h
            have h2 := (List.dropWhile_sublist pyIsSpace).subset h1
            have h3 := (List.dropWhile_sublist isWordChar).subset h2
            exact List.drop_subset 4 (a :: rest) h3
          · rcases List.mem_cons.mp h with h0 | h0
            · exact h0 ▸ List.mem_cons_self a rest
            · exact List.mem_cons_of_mem a (ih rest c h0)

theorem mem_stripMarkers (l : List Char) (c : Char)
    (h : c ∈ stripMarkers l) : c ∈ l :=
  mem_stripMarkersF l.length l c h

theorem stripNumberPrefix_cons (a : Char) (rest : List Char) :
    stripNumberPrefix (a :: rest) =
      if a.isDigit then
        match ((a :: rest).dropWhile Char.isDigit).dropWhile pyIsSpace with
        | d :: r3 => if d = '.' then r3.dropWhile pyIsSpace else a :: rest
        | [] => a :: rest
      else a :: rest := rfl

theorem mem_stripNumberPrefix (l : List Char) (c : Char)
    (h : c ∈ stripNumberPrefix l) : c ∈ l := by
  cases l with
  | nil => exact h
  | cons a rest =>
    rw [stripNumberPrefix_cons] at h
    split at h
    · split at h
      · next d r3 heq =>
        split at h
        · have h1 := (List.dropWhile_sublist pyIsSpace).subset h
          have h3 : c ∈ ((a :: rest).dropWhile Char.isDigit).dropWhile pyIsSpace := by
            rw [heq]
            exact List.mem_cons_of_mem d h1
          exact (List.dropWhile_sublist Char.isDigit).subset
            ((List.dropWhile_sublist pyIsSpace).subset h3)
        · exact h
      · exact h
    · exact h

theorem mem_stripList (l : List Char) (c : Char)
    (h : c ∈ stripList l) : c ∈ l := by
  unfold stripList at h
  rw [List.mem_reverse] at h
  have h1 := (List.dropWhile_sublist pyIsSpace).subset h
  rw [List.mem_reverse] at h1
  exact (List.dropWhile_sublist pyIsSpace).subset h1

theorem mem_preCleanList (l : List Char) (c : Char)
    (h : c ∈ preCleanList l) : c ∈ l := by
  unfold preCleanList at h
  exact mem_stripMarkers l c
    (mem_stripList _ c (mem_stripNumberPrefix _ c (mem_stripList _ c h)))

theorem isCJK_not_space (c : Char) (h : isCJK c = true) :
    pyIsSpace c = false := by
  by_contra hs
  rw [Bool.not_eq_false] at hs
  simp only [pyIsSpace, Bool.or_eq_true, decide_eq_true_eq] at hs
  rcases hs with ((((((((((((((((((((((((((((rfl | rfl) | rfl) | rfl) | rfl) | rfl) | rfl) | rfl) | rfl) | rfl) | rfl) | rfl) | rfl) | rfl) | rfl) | rfl) | rfl) | rfl) | rfl) | rfl) | rfl) | rfl) | rfl) | rfl) | rfl) | rfl) | rfl) | rfl) | rfl) <;>
    exact absurd h (by decide)

theorem cleanList_eq_filter {l : List Char}
    (h : (preCleanList l).any isCJK = true) :
    cleanList l = (preCleanList l).filter (fun c => !pyIsSpace c) := by
  unfold cleanList
  rw [if_pos h]

theorem cleanList_eq_collapse {l : List Char}
    (h : (preCleanList l).any isCJK = false) :
    cleanList l = collapseAux (preCleanList l) false := by
  unfold cleanList
  rw [if_neg (by rw [h]; exact Bool.false_ne_true)]

theorem stripList_of_forall_not_space (l : List Char)
    (h : ∀ c ∈ l, pyIsSpace c = false) : stripList l = l :=
  stripList_eq_self l
    (fun c hc => h c (List.mem_of_mem_head? hc))
    (fun c hc => h c (by
      rw [← List.head?_reverse] at hc
      exact List.mem_reverse.mp (List.mem_of_mem_head? hc)))

/-- The output of `clean_sentence` carries no leading or trailing
whitespace, so a further strip leaves it unchanged. -/
theorem stripList_cleanList (l : List Char) :
    stripList (cleanList l) = cleanList l := by
  by_cases h : (preCleanList l).any isCJK = true
  · rw [cleanList_eq_filter h]
    apply stripList_of_forall_not_space
    intro c hc
    have hf := (List.mem_filter.mp hc).2
    simpa using hf
  · have h0 : (preCleanList l).any isCJK = false := by
      revert h
      cases (preCleanList l).any isCJK <;> simp
    rw [cleanList_eq_collapse h0]
    apply stripList_eq_self
    · intro c hc
      cases hp : preCleanList l with
      | nil =>
        rw [hp] at hc
        exact Option.noConfusion hc
      | cons a tail =>
        have hhead : (stripList (stripNumberPrefix (stripList (stripMarkers l)))).head? =
            some a := by
          rw [show stripList (stripNumberPrefix (stripList (stripMarkers l))) =
            preCleanList l from rfl, hp]
          rfl
        have ha := head?_stripList _ a hhead
        rw [hp] at hc
        rw [collapseAux_head (a :: tail) false a rfl ha, Option.some.injEq] at hc
        subst hc
        exact ha
    · intro c hc
      cases hp : preCleanList l with
      | nil =>
        rw [hp] at hc
        exact Option.noConfusion hc
      | cons a tail =>
        have hne : (a :: tail).getLast?.isSome = true := by
          rw [List.getLast?_isSome]
          exact List.cons_ne_nil a tail
        rcases Option.isSome_iff_exists.mp hne with ⟨e, he⟩
        have hlast : (stripList (stripNumberPrefix (stripList (stripMarkers l)))).getLast? =
            some e := by
          rw [show stripList (stripNumberPrefix (stripList (stripMarkers l))) =
            preCleanList l from rfl, hp]
          exact he
        have hes := getLast?_stripList _ e hlast
        rw [hp] at hc
        rw [collapseAux_getLast e hes (a :: tail) false he, Option.some.injEq] at hc
        subst hc
        exact hes

/-- Whether the clean output contains a CJK ideograph is decided by the
pre-cleaned text (the whitespace branch neither adds nor removes CJK
characters). -/
theorem cleanList_any_CJK (l : List Char) :
    (cleanList l).any isCJK = (preCleanList l).any isCJK := by
  by_cases h : (preCleanList l).any isCJK = true
  · rw [h, cleanList_eq_filter h]
    apply List.any_eq_true.mpr
    rcases List.any_eq_true.mp h with ⟨c, hc, hCJK⟩
    exact ⟨c, List.mem_filter.mpr ⟨hc, by simp [isCJK_not_space c hCJK]⟩, hCJK⟩
  · have h0 : (preCleanList l).any isCJK = false := by
      revert h
      cases (preCleanList l).any isCJK <;> simp
    rw [h0, cleanList_eq_collapse h0]
    apply List.any_eq_false.mpr
    intro c hc
    rcases mem_collapseAux _ false c hc with h1 | h1
    · exact List.any_eq_false.mp h0 c h1
    · subst h1
      decide

/-- C5 counterexample: cleaning is not idempotent.  The numbering-prefix
pass removes one leading "digits dot" group per application, so
`clean "1.2.x" = "2.x"` but `clean "2.x" = "x"`. -/
theorem c5_clean_idempotence_counterexample :
    clean_sentence (clean_sentence "1.2.x") ≠ clean_sentence "1.2.x" := by
  decide

/-- C5 (amended): cleaning is idempotent on every string whose cleaned
output is itself a fixed point of the marker-removal pass and of the
numbering-prefix pass (the two passes that can re-fire on their own
output; whitespace normalization and stripping are idempotent
unconditionally). -/
theorem c5_amended_clean_idempotent (x : String)
    (h1 : stripMarkers (clean_sentence x).data = (clean_sentence x).data)
    (h2 : stripNumberPrefix (clean_sentence x).data = (clean_sentence x).data) :
    clean_sentence (clean_sentence x) = clean_sentence x := by
  have hdata : (clean_sentence x).data = cleanList x.data := rfl
  rw [hdata] at h1 h2
  have hstrip : stripList (cleanList x.data) = cleanList x.data :=
    stripList_cleanList x.data
  have hpre : preCleanList (cleanList x.data) = cleanList x.data := by
    show stripList (stripNumberPrefix (stripList (stripMarkers (cleanList x.data)))) = _
    rw [h1, hstrip, h2, hstrip]
  have key : cleanList (cleanList x.data) = cleanList x.data := by
    by_cases hc : (preCleanList x.data).any isCJK = true
    · have hyc : (cleanList x.data).any isCJK = true := by
        rw [cleanList_any_CJK]
        exact hc
      rw [cleanList_eq_filter (by rw [hpre]; exact hyc), hpre,
        cleanList_eq_filter hc]
      apply List.filter_eq_self.mpr
      intro a ha
      exact (List.mem_filter.mp ha).2
    · have hc0 : (preCleanList x.data).any isCJK = false := by
        revert hc
        cases (preCleanList x.data).any isCJK <;> simp
      have hyc : (cleanList x.data).any isCJK = false := by
        rw [cleanList_any_CJK]
        exact hc0
      rw [cleanList_eq_collapse (by rw [hpre]; exact hyc), hpre,
        cleanList_eq_collapse hc0]
      exact collapseAux_idem (preCleanList x.data) false
  exact congrArg String.mk key

theorem c5_amended_clean_idempotent_witness :
    clean_sentence (clean_sentence "Hello  world.") =
      clean_sentence "Hello  world." :=
  c5_amended_clean_idempotent "Hello  world." (by decide) (by decide)

/-- C6 counterexample: the input "doc#中 a b" contains the CJK ideograph
中, yet the `doc#\w+\s*` pass removes it (CJK ideographs are `\w` word
characters), so the Latin whitespace branch runs and the clean output
"a b" still contains a space. -/
theorem c6_cjk_whitespace_counterexample :
    ("doc#中 a b" : String).data.any isCJK = true ∧
    clean_sentence "doc#中 a b" = "a b" ∧
    ("a b" : String).data.any pyIsSpace = true := by
  decide

/-- C6 (amended): if the text still contains a CJK ideograph after the
marker-removal and numbering-prefix passes (the text the whitespace
branch actually inspects), the clean output contains no whitespace at
all; and for every input containing no CJK character the clean output
contains no run of two or more consecutive spaces — the original Latin
half holds as stated. -/
theorem c6_whitespace_rules (x : String) :
    ((preCleanList x.data).any isCJK = true →
      (clean_sentence x).data.any pyIsSpace = false) ∧
    (x.data.any isCJK = false →
      hasDoubleSpace (clean_sentence x).data = false) := by
  constructor
  · intro h
    show (cleanList x.data).any pyIsSpace = false
    rw [cleanList_eq_filter h]
    apply List.any_eq_false.mpr
    intro c hc
    have hf := (List.mem_filter.mp hc).2
    simpa using hf
  · intro h
    have hpre : (preCleanList x.data).any isCJK = false := by
      apply List.any_eq_false.mpr
      intro c hc
      exact List.any_eq_false.mp h c (mem_preCleanList x.data c hc)
    show hasDoubleSpace (cleanList x.data) = false
    rw [cleanList_eq_collapse hpre]
    exact hasDoubleSpace_collapseAux _ false

theorem c6_whitespace_rules_witness :
    ((preCleanList ("你好 世界" : String).data).any isCJK = true ∧
      (clean_sentence "你好 世界").data.any pyIsSpace = false) ∧
    (("a  b c" : String).data.any isCJK = false ∧
      hasDoubleSpace (clean_sentence "a  b c").data = false) :=
  ⟨⟨by decide, (c6_whitespace_rules "你好 世界").1 (by decide)⟩,
   ⟨by decide, (c6_whitespace_rules "a  b c").2 (by decide)⟩⟩
